import Mathlib

/-!
Verification of the Metainference bias engine (src/src/bias/Metainference.cpp).

The C++ class `Metainference` is shallowly embedded: machine doubles become
real numbers, the per-instance mutable fields become explicit state records,
and the process-wide random number generator becomes an explicit stream of
uniform draws indexed by the order in which `rand()` is called.  All claims
are settled against the single-replica, single-rank execution path, on which
every collective reduction and broadcast is the identity.
-/

namespace Metainference

/-- Noise model variants, from the `enum { GAUSS, MGAUSS, LTAIL }` in the source. -/
inductive NoiseType
  | GAUSS
  | MGAUSS
  | LTAIL
  deriving DecidableEq, Repr

/-- The hard-coded constant `sqrt2pi` from the constructor initialiser list. -/
noncomputable def sqrt2pi : ℝ := 2.506628274631001

/-- The hard-coded constant `sqrt2_div_pi` from the constructor initialiser list. -/
noncomputable def sqrt2_div_pi : ℝ := 0.45015815807855

/-- The configuration fields of `Metainference` that are fixed after construction. -/
structure Config where
  parameters : List ℝ
  noise_type : NoiseType
  doscale : Bool
  scale_min : ℝ
  scale_max : ℝ
  Dscale : ℝ
  sigma_min : ℝ
  sigma_max : ℝ
  Dsigma : ℝ
  sigma_mean : ℝ
  kbt : ℝ
  ndata : ℕ
  MCsteps : ℕ
  MCstride : ℕ

/-- The fields of `Metainference` mutated by the Monte Carlo sampler:
`scale_`, `sigma_`, `old_energy`, `MCaccept_`. -/
structure MCState where
  scale : ℝ
  sigma : List ℝ
  old_energy : ℝ
  MCaccept : ℕ

/-- The sampler state together with the lazily recorded first step `MCfirst_`. -/
structure FullState where
  mc : MCState
  MCfirst : ℤ

/-- `Metainference::getEnergySPE`: the LTAIL (long-tailed) energy used by the
sampler.  Returned already multiplied by `kbt_`, exactly as in the source. -/
noncomputable def getEnergySPE (args params : List ℝ) (sigma_mean kbt : ℝ)
    (ndata : ℕ) (sigma scale : ℝ) : ℝ :=
  let smean2 := sigma_mean * sigma_mean
  let s := Real.sqrt (sigma * sigma + smean2)
  let ene := ((args.zip params).map (fun ap =>
    let dev := scale * ap.1 - ap.2
    let a2 := 0.5 * dev * dev + s * s
    Real.log (2 * a2 / (1 - Real.exp (-a2 / smean2))))).sum
  kbt * (ene + Real.log s - (ndata : ℝ) * Real.log (sqrt2_div_pi * s))

/-- `Metainference::getEnergyGJE`: the GAUSS/MGAUSS energy used by the sampler.
For GAUSS the running variable `ss` keeps its initial value built from
`sigma[0]`; for MGAUSS it is rebuilt from `sigma[i]` on every iteration.
Returned already multiplied by `kbt_`, exactly as in the source. -/
noncomputable def getEnergyGJE (nt : NoiseType) (args params : List ℝ)
    (sigma_mean kbt : ℝ) (sigma : List ℝ) (scale : ℝ) : ℝ :=
  let smean2 := sigma_mean * sigma_mean
  kbt * ∑ i ∈ Finset.range args.length,
    (let ss := if nt = NoiseType.MGAUSS
               then sigma.getD i 0 * sigma.getD i 0 + smean2
               else sigma.getD 0 0 * sigma.getD 0 0 + smean2
     let dev := scale * args.getD i 0 - params.getD i 0
     0.5 * dev * dev / ss + Real.log (ss * sqrt2pi))

/-- `Metainference::getEnergyForceSPE` on the single-replica, single-rank path
(both collective sums are over one participant and are the identity).
First component: the energy in reduced units, as returned by the function.
Second component: the forces written back, already scaled by `kbt_`
(`setOutputForce(i, kbt_ * f[i])`). -/
noncomputable def getEnergyForceSPE (args params : List ℝ) (sigma_mean kbt : ℝ)
    (ndata : ℕ) (sigma scale : ℝ) : ℝ × List ℝ :=
  let smean2 := sigma_mean * sigma_mean
  let s := Real.sqrt (sigma * sigma + smean2)
  let ene := (((args.zip params).map (fun ap =>
    let dev := scale * ap.1 - ap.2
    let a2 := 0.5 * dev * dev + s * s
    let t := Real.exp (-a2 / smean2)
    let it := 1 / (1 - t)
    Real.log (2 * a2 * it))).sum)
    + Real.log s - (ndata : ℝ) * Real.log (sqrt2_div_pi * s)
  let f := (args.zip params).map (fun ap =>
    let dev := scale * ap.1 - ap.2
    let a2 := 0.5 * dev * dev + s * s
    let t := Real.exp (-a2 / smean2)
    let dt := 1 / t
    let dit := 1 / (1 - dt);
    -scale * dev * (dit / smean2 + 1 / a2))
  (ene, f.map (fun fi => kbt * fi))

/-- `Metainference::getEnergyForceGJE` on the single-replica, single-rank path
(the collective sum of `inv_s2` is over one participant and is the identity,
so `inv_s2[j] = 1/ss[j]`).  First component: the energy in reduced units, as
returned by the function.  Second component: the forces written back
(`setOutputForce(i, -kbt_*dev*scale_*inv_s2[sel_sigma])`). -/
noncomputable def getEnergyForceGJE (nt : NoiseType) (args params : List ℝ)
    (sigma_mean kbt : ℝ) (sigma : List ℝ) (scale : ℝ) : ℝ × List ℝ :=
  let smean2 := sigma_mean * sigma_mean
  let ss := fun j => sigma.getD j 0 * sigma.getD j 0 + smean2
  let inv_s2 := fun j => 1 / ss j
  let sel := fun i => if nt = NoiseType.MGAUSS then i else 0
  (∑ i ∈ Finset.range args.length,
     (let dev := scale * args.getD i 0 - params.getD i 0
      0.5 * dev * dev * inv_s2 (sel i) + Real.log (ss (sel i) * sqrt2pi)),
   (List.range args.length).map (fun i =>
      let dev := scale * args.getD i 0 - params.getD i 0;
      -kbt * dev * scale * inv_s2 (sel i)))

/-- The `switch(noise_type_)` energy dispatch used inside `doMonteCarlo`:
GAUSS/MGAUSS use `getEnergyGJE(sigma, scale)`, LTAIL uses
`getEnergySPE(sigma[0], scale)`. -/
noncomputable def stateEnergy (cfg : Config) (args : List ℝ)
    (sigma : List ℝ) (scale : ℝ) : ℝ :=
  match cfg.noise_type with
  | NoiseType.GAUSS => getEnergyGJE cfg.noise_type args cfg.parameters cfg.sigma_mean cfg.kbt sigma scale
  | NoiseType.MGAUSS => getEnergyGJE cfg.noise_type args cfg.parameters cfg.sigma_mean cfg.kbt sigma scale
  | NoiseType.LTAIL => getEnergySPE args cfg.parameters cfg.sigma_mean cfg.kbt cfg.ndata (sigma.getD 0 0) scale

/-- The `switch(noise_type_)` energy-and-force dispatch used inside `calculate`. -/
noncomputable def energyForce (cfg : Config) (args : List ℝ)
    (sigma : List ℝ) (scale : ℝ) : ℝ × List ℝ :=
  match cfg.noise_type with
  | NoiseType.GAUSS => getEnergyForceGJE cfg.noise_type args cfg.parameters cfg.sigma_mean cfg.kbt sigma scale
  | NoiseType.MGAUSS => getEnergyForceGJE cfg.noise_type args cfg.parameters cfg.sigma_mean cfg.kbt sigma scale
  | NoiseType.LTAIL => getEnergyForceSPE args cfg.parameters cfg.sigma_mean cfg.kbt cfg.ndata (sigma.getD 0 0) scale

/-- The first boundary check of `doMonteCarlo`: `if (v > max) v = 2*max - v`. -/
noncomputable def reflectMax (vmax v : ℝ) : ℝ :=
  if vmax < v then 2 * vmax - v else v

/-- The second boundary check of `doMonteCarlo`: `if (v < min) v = 2*min - v`. -/
noncomputable def reflectMin (vmin v : ℝ) : ℝ :=
  if v < vmin then 2 * vmin - v else v

/-- The two sequential boundary checks applied to a proposed value in
`doMonteCarlo`: first the reflection at the maximum, then the reflection at
the minimum applied to the possibly already reflected value. -/
noncomputable def reflect (vmin vmax v : ℝ) : ℝ :=
  reflectMin vmin (reflectMax vmax v)

/-- One random-walk proposal from `doMonteCarlo`: draw `r` uniform in `[0,1]`,
step by `ds = -D + r*2*D`, then reflect at the bounds. -/
noncomputable def propose (v D vmin vmax r : ℝ) : ℝ :=
  reflect vmin vmax (v + (-D + r * 2 * D))

/-- The `j`-loop of `doMonteCarlo` proposing a new value for every sigma
component; the `j`-th component consumes the draw with stream index `k + j`. -/
noncomputable def proposeSigmas (cfg : Config) (rng : ℕ → ℝ) :
    List ℝ → ℕ → List ℝ
  | [], _ => []
  | s :: rest, k =>
      propose s cfg.Dsigma cfg.sigma_min cfg.sigma_max (rng k) ::
        proposeSigmas cfg rng rest (k + 1)

/-- The Metropolis accept/reject decision of `doMonteCarlo`:
`delta = (new_energy - old_energy)/kbt_`; accept unconditionally when
`delta <= 0`, otherwise accept exactly when the fresh draw `u` satisfies
`u < exp(-delta)`.  On acceptance `old_energy`, `scale_`, `sigma_` are
replaced and `MCaccept_` is incremented; on rejection the state is unchanged. -/
noncomputable def mcAcceptStep (kbt : ℝ) (st : MCState) (new_scale : ℝ)
    (new_sigma : List ℝ) (new_energy u : ℝ) : MCState :=
  let delta := (new_energy - st.old_energy) / kbt
  if delta ≤ 0 then
    ⟨new_scale, new_sigma, new_energy, st.MCaccept + 1⟩
  else if u < Real.exp (-delta) then
    ⟨new_scale, new_sigma, new_energy, st.MCaccept + 1⟩
  else
    st

/-- One inner iteration of the `doMonteCarlo` loop (single-replica path, on
which the scale broadcasts are the identity).  The second component threads
the index of the next unconsumed random draw: one draw for the scale move
when `doscale_`, one per sigma component, and one for the Metropolis test
only when `delta > 0` (the source calls `rand()` only in that branch). -/
noncomputable def mcInner (cfg : Config) (args : List ℝ) (rng : ℕ → ℝ) :
    MCState × ℕ → MCState × ℕ := fun p =>
  let st := p.1
  let k := p.2
  let ns := if cfg.doscale
            then (propose st.scale cfg.Dscale cfg.scale_min cfg.scale_max (rng k), k + 1)
            else (st.scale, k)
  let new_scale := ns.1
  let k1 := ns.2
  let new_sigma := proposeSigmas cfg rng st.sigma k1
  let k2 := k1 + st.sigma.length
  let new_energy := stateEnergy cfg args new_sigma new_scale
  let delta := (new_energy - st.old_energy) / cfg.kbt
  (mcAcceptStep cfg.kbt st new_scale new_sigma new_energy (rng k2),
   if delta ≤ 0 then k2 else k2 + 1)

/-- `Metainference::doMonteCarlo`: seed `old_energy` from the current state's
energy when `MCfirst_ == -1` (first time only), then run `MCsteps_` inner
iterations. -/
noncomputable def doMonteCarlo (cfg : Config) (args : List ℝ) (st0 : MCState)
    (MCfirst : ℤ) (rng : ℕ → ℝ) : MCState :=
  let st1 := if MCfirst = -1
             then { st0 with old_energy := stateEnergy cfg args st0.sigma st0.scale }
             else st0
  ((mcInner cfg args rng)^[cfg.MCsteps] (st1, 0)).1

/-- The elapsed-trials count of `Metainference::calculate`:
`floor((step - MCfirst_)/MCstride_) + 1.0`, computed on doubles. -/
noncomputable def MCtrials (step MCfirst : ℤ) (MCstride : ℕ) : ℝ :=
  (⌊((step : ℝ) - (MCfirst : ℝ)) / (MCstride : ℝ)⌋ : ℤ) + 1

/-- The values published by one `calculate` call: the `bias` component
(`kbt_ * ene`), the `accept` component, the per-argument output forces, and
the published `scale`/`sigma` values. -/
structure Outputs where
  bias : ℝ
  accept : ℝ
  forces : List ℝ
  scaleOut : ℝ
  sigmaOut : List ℝ

/-- `Metainference::calculate` (single-replica, single-rank path): run the
sampler when `step % MCstride_ == 0` and this is not an exchange step, lazily
record `MCfirst_`, publish the acceptance ratio
`MCaccept_ / MCsteps_ / MCtrials`, then compute and publish bias and forces. -/
noncomputable def calculate (cfg : Config) (args : List ℝ) (step : ℤ)
    (exchangeStep : Bool) (rng : ℕ → ℝ) (fs : FullState) :
    FullState × Outputs :=
  let mc := if step % (cfg.MCstride : ℤ) = 0 ∧ exchangeStep = false
            then doMonteCarlo cfg args fs.mc fs.MCfirst rng
            else fs.mc
  let first := if fs.MCfirst = -1 then step else fs.MCfirst
  let accept := (mc.MCaccept : ℝ) / (cfg.MCsteps : ℝ) / MCtrials step first cfg.MCstride
  let ef := energyForce cfg args mc.sigma mc.scale
  (⟨mc, first⟩,
   ⟨cfg.kbt * ef.1, accept, ef.2, mc.scale, mc.sigma⟩)

/-- The `SIGMA0` resolution logic of the constructor: reject more than one
value unless MGAUSS (line 175); keep the list when its length matches the
number of arguments; expand a single value to one copy (GAUSS/LTAIL) or to
one copy per argument (MGAUSS); otherwise reject (lines 192-200). -/
def resolveSigma (nt : NoiseType) (readsigma : List ℝ) (narg : ℕ) :
    Option (List ℝ) :=
  if nt ≠ NoiseType.MGAUSS ∧ 1 < readsigma.length then none
  else if readsigma.length = narg then some readsigma
  else if readsigma.length = 1 then
    if nt = NoiseType.MGAUSS then some (List.replicate narg (readsigma.getD 0 0))
    else some [readsigma.getD 0 0]
  else none

/-- The parts of the `Metainference` constructor the claims depend on:
parameter-count check, sigma resolution, the one-time division of
`sigma_mean_` by `sqrt(nrep_)`, the `MCstride_ *= getStride()` adjustment,
and the initial sampler state (`scale_ = 1` unless `SCALEDATA`,
`old_energy = 0`, `MCaccept_ = 0`, `MCfirst_ = -1`). -/
noncomputable def mkConfig (narg : ℕ) (params : List ℝ) (nt : NoiseType)
    (doscale : Bool) (scale0 scale_min scale_max Dscale : ℝ)
    (readsigma : List ℝ) (sigma_min sigma_max Dsigma : ℝ)
    (sigma_mean0 kbt : ℝ) (mcsteps mcstride : ℕ) (nrep : ℕ)
    (hostStride : ℕ) : Option (Config × FullState) :=
  if params.length ≠ narg then none
  else
    match resolveSigma nt readsigma narg with
    | none => none
    | some sigma =>
        some ({ parameters := params
                noise_type := nt
                doscale := doscale
                scale_min := scale_min
                scale_max := scale_max
                Dscale := Dscale
                sigma_min := sigma_min
                sigma_max := sigma_max
                Dsigma := Dsigma
                sigma_mean := sigma_mean0 / Real.sqrt (nrep : ℝ)
                kbt := kbt
                ndata := narg
                MCsteps := mcsteps
                MCstride := mcstride * hostStride },
              ⟨⟨if doscale then scale0 else 1, sigma, 0, 0⟩, -1⟩)

end Metainference

namespace Metainference

/-- Claim C1: in every inner Monte Carlo step, with `delta = (new_energy -
old_energy)/kbt_` the reduced energy difference: if `delta <= 0` the proposal
is always accepted; if `delta > 0` it is accepted exactly when the fresh
uniform draw `u` satisfies `u < exp(-delta)`.  On acceptance `old_energy`,
`scale`, `sigma` are replaced by the proposed values and the acceptance
counter is incremented; on rejection all of them are left unchanged. -/
theorem mcAcceptStep_metropolis (kbt : ℝ) (st : MCState) (ns : ℝ)
    (nsig : List ℝ) (ne u : ℝ) :
    ((ne - st.old_energy) / kbt ≤ 0 →
      mcAcceptStep kbt st ns nsig ne u = ⟨ns, nsig, ne, st.MCaccept + 1⟩) ∧
    (0 < (ne - st.old_energy) / kbt →
      ((u < Real.exp (-((ne - st.old_energy) / kbt)) →
         mcAcceptStep kbt st ns nsig ne u = ⟨ns, nsig, ne, st.MCaccept + 1⟩) ∧
       (Real.exp (-((ne - st.old_energy) / kbt)) ≤ u →
         mcAcceptStep kbt st ns nsig ne u = st))) := by
  unfold mcAcceptStep
  refine ⟨fun h => ?_, fun h => ⟨fun hu => ?_, fun hu => ?_⟩⟩
  · simp [h]
  · simp [not_le.mpr h, hu]
  · simp [not_le.mpr h, not_lt.mpr hu]

/-- Concrete instances of the Metropolis rule: `delta = -1` accepts, `delta = 1`
accepts under a draw below `exp(-1)` and rejects under a draw above it. -/
theorem mcAcceptStep_metropolis_witness :
    mcAcceptStep 1 ⟨1, [2], 5, 0⟩ 3 [4] 4 0 = ⟨3, [4], 4, 1⟩ ∧
    mcAcceptStep 1 ⟨1, [2], 5, 0⟩ 3 [4] 6 0 = ⟨3, [4], 6, 1⟩ ∧
    mcAcceptStep 1 ⟨1, [2], 5, 0⟩ 3 [4] 6 1 = ⟨1, [2], 5, 0⟩ := by
  refine ⟨(mcAcceptStep_metropolis 1 ⟨1, [2], 5, 0⟩ 3 [4] 4 0).1 (by norm_num),
    ((mcAcceptStep_metropolis 1 ⟨1, [2], 5, 0⟩ 3 [4] 6 0).2 (by norm_num)).1
      (by positivity),
    ((mcAcceptStep_metropolis 1 ⟨1, [2], 5, 0⟩ 3 [4] 6 1).2 (by norm_num)).2 ?_⟩
  have h : Real.exp (-((6 - (5:ℝ)) / 1)) ≤ Real.exp 0 :=
    Real.exp_le_exp.mpr (by norm_num)
  simpa [Real.exp_zero] using h

/-- Claim C2, counterexample: from the in-bounds current value `1` with bounds
`[0, 1]`, half-width `Dsigma = 3` and draw `r = 1`, the raw proposal is `4`;
the two sequential reflections produce `2 * 1 - 4 = -2` and then
`2 * 0 - (-2) = 2`, which is still above the upper bound. -/
theorem propose_escapes_bounds :
    propose 1 3 0 1 1 = 2 ∧ ¬propose 1 3 0 1 1 ≤ 1 := by
  have h : propose 1 3 0 1 1 = 2 := by
    unfold propose reflect reflectMax reflectMin
    norm_num
  exact ⟨h, by rw [h]; norm_num⟩

/-- Claim C2, amended: if in addition the step half-width is at most the width
of the bound interval (`D <= max - min`), a proposal from an in-bounds value
lands in `[min, max]` after reflection, and the reflection step leaves any
already in-bounds value unchanged. -/
theorem propose_stays_in_bounds (vmin vmax v D r : ℝ)
    (hr0 : 0 ≤ r) (hr1 : r ≤ 1) (hv0 : vmin ≤ v) (hv1 : v ≤ vmax)
    (hD0 : 0 ≤ D) (hD1 : D ≤ vmax - vmin) :
    (vmin ≤ propose v D vmin vmax r ∧ propose v D vmin vmax r ≤ vmax) ∧
    reflect vmin vmax v = v := by
  have hds0 : 0 ≤ r * 2 * D := by positivity
  have hds1 : r * 2 * D ≤ 2 * D := by nlinarith
  constructor
  · unfold propose reflect reflectMax reflectMin
    split_ifs <;> constructor <;> linarith
  · unfold reflect reflectMax reflectMin
    split_ifs <;> linarith

/-- Concrete instance: from `v = 0.5` with bounds `[0, 1]`, `D = 0.5`, draw
`r = 1`, the proposal stays in bounds and reflection fixes `0.5`. -/
theorem propose_stays_in_bounds_witness :
    ((0:ℝ) ≤ propose 0.5 0.5 0 1 1 ∧ propose 0.5 0.5 0 1 1 ≤ 1) ∧
    reflect 0 1 0.5 = 0.5 :=
  propose_stays_in_bounds 0 1 0.5 0.5 1 (by norm_num) (by norm_num)
    (by norm_num) (by norm_num) (by norm_num) (by norm_num)

/-- Claim C8, counterexample: with one argument, the GAUSS (single-sigma)
variant is accepted with a one-element `SIGMA0`, and the resulting sigma
vector has length `1 = N_arg` although the variant is not MGAUSS — so
"length equals `N_arg` iff MGAUSS" fails at `N_arg = 1`. -/
theorem resolveSigma_iff_fails_at_one_arg :
    resolveSigma NoiseType.GAUSS [(1:ℝ)] 1 = some [(1:ℝ)] ∧
    ([(1:ℝ)].length = 1) ∧ NoiseType.GAUSS ≠ NoiseType.MGAUSS :=
  ⟨rfl, rfl, by decide⟩

/-- Claim C8, amended: for every accepted configuration with `N_arg >= 1`,
the sigma vector's length is exactly 1 or exactly `N_arg`; it equals `N_arg`
whenever MGAUSS is selected; and when `N_arg >= 2` it equals `N_arg` only if
MGAUSS is selected (for `N_arg = 1` the single-sigma variants also produce
length `1 = N_arg`). -/
theorem resolveSigma_length (nt : NoiseType) (readsigma : List ℝ) (narg : ℕ)
    (sigma : List ℝ) (_hn : 1 ≤ narg)
    (h : resolveSigma nt readsigma narg = some sigma) :
    (sigma.length = 1 ∨ sigma.length = narg) ∧
    (nt = NoiseType.MGAUSS → sigma.length = narg) ∧
    (2 ≤ narg → sigma.length = narg → nt = NoiseType.MGAUSS) := by
  unfold resolveSigma at h
  split_ifs at h with h1 h2 h3 h4
  · obtain rfl := Option.some.inj h
    refine ⟨Or.inr h2, fun _ => h2, fun hn2 _ => ?_⟩
    by_contra hne
    exact h1 ⟨hne, by omega⟩
  · obtain rfl := Option.some.inj h
    exact ⟨Or.inr (by simp), fun _ => by simp, fun _ _ => h4⟩
  · obtain rfl := Option.some.inj h
    refine ⟨Or.inl rfl, fun hM => absurd hM h4, fun hn2 hl => ?_⟩
    simp only [List.length_cons, List.length_nil] at hl
    omega

/-- Concrete instance: MGAUSS with two arguments and a two-element `SIGMA0`
is accepted and the resulting length is `N_arg = 2`. -/
theorem resolveSigma_length_witness :
    (([(5:ℝ), 6].length = 1 ∨ [(5:ℝ), 6].length = 2) ∧
     (NoiseType.MGAUSS = NoiseType.MGAUSS → [(5:ℝ), 6].length = 2) ∧
     (2 ≤ 2 → [(5:ℝ), 6].length = 2 → NoiseType.MGAUSS = NoiseType.MGAUSS)) :=
  resolveSigma_length NoiseType.MGAUSS [5, 6] 2 [5, 6] (by norm_num) rfl

/-- Claim C9: on the single-replica, single-rank path, the energy computed by
the force engine `getEnergyForceGJE`, multiplied by `kbt_`, coincides with the
sampler's energy function `getEnergyGJE` at the same state, for every noise
variant dispatch (in particular GAUSS and MGAUSS). -/
theorem getEnergyForceGJE_refines_getEnergyGJE (nt : NoiseType)
    (args params : List ℝ) (sm kbt : ℝ) (sigma : List ℝ) (scale : ℝ) :
    kbt * (getEnergyForceGJE nt args params sm kbt sigma scale).1
      = getEnergyGJE nt args params sm kbt sigma scale := by
  by_cases hM : nt = NoiseType.MGAUSS
  · simp only [getEnergyForceGJE, getEnergyGJE, hM, if_true, eq_self_iff_true]
    congr 1
    refine Finset.sum_congr rfl fun i _ => ?_
    ring
  · simp only [getEnergyForceGJE, getEnergyGJE, hM, if_false]
    congr 1
    refine Finset.sum_congr rfl fun i _ => ?_
    ring

end Metainference

namespace Metainference

/-- The LTAIL energy exactly as the spec states it (§4.1): each argument
contributes `log(2*a2/(1 - exp(-a2/sigma_mean^2)))` with
`a2 = 0.5*(scale*argument - reference)^2 + s^2`, `s = sqrt(sigma^2 + sigma_mean^2)`,
and the normalization/Jeffrey's-prior correction
`log(s) - N_arg*log(sqrt2_div_pi*s)` is added exactly once. -/
noncomputable def ltailSpecEnergy (args params : List ℝ) (sigma_mean : ℝ)
    (ndata : ℕ) (sigma scale : ℝ) : ℝ :=
  let s := Real.sqrt (sigma ^ 2 + sigma_mean ^ 2)
  (((args.zip params).map (fun ap =>
    let a2 := 0.5 * (scale * ap.1 - ap.2) ^ 2 + s ^ 2
    Real.log (2 * a2 / (1 - Real.exp (-a2 / sigma_mean ^ 2))))).sum)
  + (Real.log s - (ndata : ℝ) * Real.log (sqrt2_div_pi * s))

/-- Claim C3: the LTAIL energy of `getEnergySPE` (which carries the `kbt_`
factor the sampler divides back out) and the energy of the single-replica,
single-rank path of `getEnergyForceSPE` both equal the spec's formula: the
sum of the per-argument long-tail terms plus the normalization/Jeffrey's
prior correction added exactly once, not once per argument. -/
theorem ltail_energy_forms_agree (args params : List ℝ) (sm kbt : ℝ)
    (nd : ℕ) (sigma scale : ℝ) :
    getEnergySPE args params sm kbt nd sigma scale
      = kbt * ltailSpecEnergy args params sm nd sigma scale ∧
    (getEnergyForceSPE args params sm kbt nd sigma scale).1
      = ltailSpecEnergy args params sm nd sigma scale := by
  have hsq : sigma * sigma + sm * sm = sigma ^ 2 + sm ^ 2 := by ring
  have ha2 : ∀ d e : ℝ, 0.5 * d * d + e * e = 0.5 * d ^ 2 + e ^ 2 :=
    fun d e => by ring
  have hsm : sm * sm = sm ^ 2 := by ring
  constructor
  · simp only [getEnergySPE, ltailSpecEnergy]
    rw [hsq]
    simp only [ha2, hsm]
    ring
  · simp only [getEnergyForceSPE, ltailSpecEnergy]
    rw [hsq]
    simp only [ha2, hsm, mul_one_div]
    ring

/-- Claim C7: for every configuration the constructor accepts, the stored
`sigma_mean` equals the configured value divided by `sqrt(replica_count)`,
the division being performed exactly once at construction (the constructed
`Config` is immutable afterwards: neither `doMonteCarlo` nor `calculate`
takes or returns a `Config`-modifying state); in particular for replica
counts 1, 2 and 4 the result is the input divided by 1, `sqrt 2` and 2. -/
theorem mkConfig_sigma_mean (narg : ℕ) (params : List ℝ) (nt : NoiseType)
    (doscale : Bool) (scale0 smin smax Ds : ℝ) (readsigma : List ℝ)
    (sgmin sgmax Dsg : ℝ) (sm0 kbt : ℝ) (mcsteps mcstride nrep hostStride : ℕ)
    (cfg : Config) (fs : FullState)
    (h : mkConfig narg params nt doscale scale0 smin smax Ds readsigma
          sgmin sgmax Dsg sm0 kbt mcsteps mcstride nrep hostStride
         = some (cfg, fs)) :
    cfg.sigma_mean = sm0 / Real.sqrt (nrep : ℝ) ∧
    (nrep = 1 → cfg.sigma_mean = sm0) ∧
    (nrep = 2 → cfg.sigma_mean = sm0 / Real.sqrt 2) ∧
    (nrep = 4 → cfg.sigma_mean = sm0 / 2) := by
  unfold mkConfig at h
  by_cases h1 : params.length ≠ narg
  · rw [if_pos h1] at h
    exact absurd h (by simp)
  · rw [if_neg h1] at h
    cases hres : resolveSigma nt readsigma narg with
    | none => rw [hres] at h; exact absurd h (by simp)
    | some s =>
      rw [hres] at h
      simp only [Option.some.injEq, Prod.mk.injEq] at h
      obtain ⟨h2, h3⟩ := h
      subst h2
      refine ⟨rfl, fun hh => ?_, fun hh => ?_, fun hh => ?_⟩
      · subst hh; simp [Real.sqrt_one]
      · subst hh; norm_num
      · subst hh
        have h4 : ((4:ℕ):ℝ) = (2:ℝ) ^ 2 := by norm_num
        simp only [h4, Real.sqrt_sq (by norm_num : (0:ℝ) ≤ 2)]

/-- Concrete instance: a GAUSS configuration with one argument and four
replicas is accepted and stores `sigma_mean = 3 / 2` from the configured 3. -/
theorem mkConfig_sigma_mean_witness :
    ({ parameters := [(0:ℝ)], noise_type := NoiseType.GAUSS, doscale := false,
       scale_min := 0, scale_max := 2, Dscale := 0, sigma_min := 0,
       sigma_max := 2, Dsigma := 0, sigma_mean := 3 / Real.sqrt ((4:ℕ) : ℝ),
       kbt := 1, ndata := 1, MCsteps := 1, MCstride := 1 * 1 } : Config).sigma_mean
      = 3 / 2 :=
  (mkConfig_sigma_mean 1 [(0:ℝ)] NoiseType.GAUSS false 1 0 2 0 [(1:ℝ)] 0 2 0
      3 1 1 1 4 1 _ ⟨⟨1, [(1:ℝ)], 0, 0⟩, -1⟩ rfl).2.2.2 rfl

/-- Claim C5: the acceptance component published by `calculate` equals the
accepted count divided by `MC_STEPS` divided by the trial count
`MCtrials = floor((step - MCfirst)/MCstride) + 1`, where `MCfirst` is the
lazily recorded first step index as published in the post-call state. -/
theorem calculate_accept_formula (cfg : Config) (args : List ℝ) (step : ℤ)
    (ex : Bool) (rng : ℕ → ℝ) (fs : FullState) :
    ((calculate cfg args step ex rng fs).2).accept
      = ((calculate cfg args step ex rng fs).1.mc.MCaccept : ℝ)
          / (cfg.MCsteps : ℝ)
          / MCtrials step ((calculate cfg args step ex rng fs).1.MCfirst)
              cfg.MCstride := rfl

/-- Claim C10: under the documented preconditions `MC_STEPS >= 1`,
`stride >= 1` and `step >= MCfirst`, both divisors of the acceptance ratio
computed in `calculate` are strictly positive, so the division never has a
zero divisor there. -/
theorem accept_divisors_pos (step first : ℤ) (stride MCsteps : ℕ)
    (h1 : 1 ≤ MCsteps) (h2 : 1 ≤ stride) (h3 : first ≤ step) :
    0 < ((MCsteps : ℕ) : ℝ) ∧ 0 < MCtrials step first stride := by
  constructor
  · have : 0 < MCsteps := h1
    exact_mod_cast this
  · unfold MCtrials
    have hx : (0:ℝ) ≤ ((step : ℝ) - (first : ℝ)) / ((stride : ℕ) : ℝ) := by
      apply div_nonneg
      · have : (first : ℝ) ≤ (step : ℝ) := by exact_mod_cast h3
        linarith
      · positivity
    have hf : 0 ≤ ⌊((step : ℝ) - (first : ℝ)) / ((stride : ℕ) : ℝ)⌋ :=
      Int.floor_nonneg.mpr hx
    have hc : (0:ℝ) ≤ ((⌊((step : ℝ) - (first : ℝ)) / ((stride : ℕ) : ℝ)⌋ : ℤ) : ℝ) := by
      exact_mod_cast hf
    linarith

/-- Concrete instance: at step 5 with first step 1, stride 2 and 3 MC steps,
both divisors are positive. -/
theorem accept_divisors_pos_witness :
    0 < (((3:ℕ) : ℕ) : ℝ) ∧ 0 < MCtrials 5 1 2 :=
  accept_divisors_pos 5 1 2 3 (by norm_num) (by norm_num) (by norm_num)

end Metainference

namespace Metainference

/-- A zero-width random-walk move from an in-bounds value is the identity:
the step is `0` and neither reflection fires. -/
theorem propose_zero_width (v vmin vmax r : ℝ) (h1 : vmin ≤ v) (h2 : v ≤ vmax) :
    propose v 0 vmin vmax r = v := by
  unfold propose reflect reflectMax reflectMin
  rw [show v + (-0 + r * 2 * 0) = v from by ring]
  rw [if_neg (not_lt.mpr h2), if_neg (not_lt.mpr h1)]

/-- With `Dsigma = 0` and an in-bounds sigma, the sigma proposal loop returns
the sigma vector unchanged. -/
theorem proposeSigmas_fixed (cfg : Config) (rng : ℕ → ℝ) (sg : ℝ) (k : ℕ)
    (hD : cfg.Dsigma = 0) (h1 : cfg.sigma_min ≤ sg) (h2 : sg ≤ cfg.sigma_max) :
    proposeSigmas cfg rng [sg] k = [sg] := by
  unfold proposeSigmas
  rw [hD, propose_zero_width sg cfg.sigma_min cfg.sigma_max (rng k) h1 h2]
  rfl

/-- One inner MC iteration with scale sampling off, `Dsigma = 0` and an
in-bounds sigma preserves `scale = 1` and `sigma = [sg]` (whether the
proposal is accepted or rejected, the proposed values equal the old ones). -/
theorem mcInner_fixed (cfg : Config) (args : List ℝ) (rng : ℕ → ℝ) (sg : ℝ)
    (hsc : cfg.doscale = false) (hD : cfg.Dsigma = 0)
    (h1 : cfg.sigma_min ≤ sg) (h2 : sg ≤ cfg.sigma_max)
    (p : MCState × ℕ) (hp : p.1.scale = 1 ∧ p.1.sigma = [sg]) :
    ((mcInner cfg args rng) p).1.scale = 1 ∧
    ((mcInner cfg args rng) p).1.sigma = [sg] := by
  obtain ⟨hs, hsig⟩ := hp
  unfold mcInner mcAcceptStep
  simp only [hsc, Bool.false_eq_true, if_false, hsig, hs]
  rw [proposeSigmas_fixed cfg rng sg _ hD h1 h2]
  split_ifs <;> simp [hs, hsig]

/-- `doMonteCarlo` with scale sampling off, `Dsigma = 0` and an in-bounds
sigma preserves `scale = 1` and `sigma = [sg]` across the seeding branch and
all inner iterations. -/
theorem doMonteCarlo_fixed (cfg : Config) (args : List ℝ) (st0 : MCState)
    (MCfirst : ℤ) (rng : ℕ → ℝ) (sg : ℝ)
    (hsc : cfg.doscale = false) (hD : cfg.Dsigma = 0)
    (h1 : cfg.sigma_min ≤ sg) (h2 : sg ≤ cfg.sigma_max)
    (hp : st0.scale = 1 ∧ st0.sigma = [sg]) :
    (doMonteCarlo cfg args st0 MCfirst rng).scale = 1 ∧
    (doMonteCarlo cfg args st0 MCfirst rng).sigma = [sg] := by
  unfold doMonteCarlo
  have key : ∀ n (p : MCState × ℕ), p.1.scale = 1 ∧ p.1.sigma = [sg] →
      ((mcInner cfg args rng)^[n] p).1.scale = 1 ∧
      ((mcInner cfg args rng)^[n] p).1.sigma = [sg] := by
    intro n
    induction n with
    | zero => intro p hp; simpa using hp
    | succ n ih =>
        intro p hp
        rw [Function.iterate_succ_apply]
        exact ih _ (mcInner_fixed cfg args rng sg hsc hD h1 h2 p hp)
  apply key
  split_ifs with hf
  · exact hp
  · exact hp

/-- Evaluation of the GJE force engine at a single argument `x`, reference 0,
scale 1, one sigma component: energy term and force in closed form. -/
theorem getEnergyForceGJE_single (sm kbt sg x : ℝ) :
    (getEnergyForceGJE NoiseType.GAUSS [x] [0] sm kbt [sg] 1).1
      = 0.5 * x ^ 2 / (sg ^ 2 + sm ^ 2) + Real.log ((sg ^ 2 + sm ^ 2) * sqrt2pi) ∧
    (getEnergyForceGJE NoiseType.GAUSS [x] [0] sm kbt [sg] 1).2
      = [-kbt * x / (sg ^ 2 + sm ^ 2)] := by
  unfold getEnergyForceGJE
  simp only [List.length_cons, List.length_nil, Finset.sum_range_one,
    show List.range 1 = [0] from rfl, List.map_cons, List.map_nil,
    List.getD_cons_zero]
  norm_num
  have hss : sg * sg + sm * sm = sg ^ 2 + sm ^ 2 := by ring
  constructor
  · rw [hss]; ring
  · rw [hss]; ring_nf

/-- Claim C4: GAUSS variant, single argument with reference 0, scale fixed at
1, sigma fixed (`Dsigma = 0`, scale sampling off, sigma in bounds): for every
step, exchange flag, random stream and starting state, the published bias is
the stated deterministic function of the argument value alone, and the output
force equals `-kbt * x / (sigma^2 + sigma_mean^2)`. -/
theorem calculate_gauss_deterministic (cfg : Config) (x sg : ℝ) (step : ℤ)
    (ex : Bool) (rng : ℕ → ℝ) (fs : FullState)
    (hnt : cfg.noise_type = NoiseType.GAUSS)
    (hpar : cfg.parameters = [0])
    (hsc : cfg.doscale = false) (hD : cfg.Dsigma = 0)
    (h1 : cfg.sigma_min ≤ sg) (h2 : sg ≤ cfg.sigma_max)
    (hfs : fs.mc.scale = 1 ∧ fs.mc.sigma = [sg]) :
    (calculate cfg [x] step ex rng fs).2.bias
      = cfg.kbt * (0.5 * x ^ 2 / (sg ^ 2 + cfg.sigma_mean ^ 2)
          + Real.log ((sg ^ 2 + cfg.sigma_mean ^ 2) * sqrt2pi)) ∧
    (calculate cfg [x] step ex rng fs).2.forces
      = [-cfg.kbt * x / (sg ^ 2 + cfg.sigma_mean ^ 2)] := by
  have hmc : (if step % (cfg.MCstride : ℤ) = 0 ∧ ex = false
              then doMonteCarlo cfg [x] fs.mc fs.MCfirst rng
              else fs.mc).scale = 1 ∧
             (if step % (cfg.MCstride : ℤ) = 0 ∧ ex = false
              then doMonteCarlo cfg [x] fs.mc fs.MCfirst rng
              else fs.mc).sigma = [sg] := by
    split_ifs with hcond
    · exact doMonteCarlo_fixed cfg [x] fs.mc fs.MCfirst rng sg hsc hD h1 h2 hfs
    · exact hfs
  simp only [calculate]
  rw [hmc.1, hmc.2]
  simp only [energyForce, hnt, hpar]
  have hsingle := getEnergyForceGJE_single cfg.sigma_mean cfg.kbt sg x
  exact ⟨by rw [hsingle.1], hsingle.2⟩

end Metainference

namespace Metainference

/-- Concrete instance of the end-to-end GAUSS scenario: `sigma = 0`,
`sigma_mean = 1`, `kbt = 1`, argument `1`, reference `0`, scale fixed at 1. -/
theorem calculate_gauss_deterministic_witness :
    (calculate ⟨[0], NoiseType.GAUSS, false, 0, 2, 0, 0, 1, 0, 1, 1, 1, 1, 1⟩
        [1] 0 false (fun _ => 0) ⟨⟨1, [0], 0, 0⟩, -1⟩).2.bias
      = 1 * (0.5 * 1 ^ 2 / (0 ^ 2 + 1 ^ 2)
          + Real.log ((0 ^ 2 + 1 ^ 2) * sqrt2pi)) ∧
    (calculate ⟨[0], NoiseType.GAUSS, false, 0, 2, 0, 0, 1, 0, 1, 1, 1, 1, 1⟩
        [1] 0 false (fun _ => 0) ⟨⟨1, [0], 0, 0⟩, -1⟩).2.forces
      = [-1 * 1 / (0 ^ 2 + 1 ^ 2)] :=
  calculate_gauss_deterministic
    ⟨[0], NoiseType.GAUSS, false, 0, 2, 0, 0, 1, 0, 1, 1, 1, 1, 1⟩
    1 0 0 false (fun _ => 0) ⟨⟨1, [0], 0, 0⟩, -1⟩
    rfl rfl rfl rfl (by norm_num) (by norm_num) ⟨rfl, rfl⟩

end Metainference

namespace Metainference

/-- A GAUSS configuration with `MCstride = 2` used to exercise the seeding
logic: one argument with reference 0, no scale sampling, `Dsigma = 0`,
`sigma = [0]` in bounds, `sigma_mean = 1`, `kbt = 1`, one inner MC step. -/
noncomputable def seedCfg : Config :=
  ⟨[0], NoiseType.GAUSS, false, 0, 2, 0, 0, 1, 0, 1, 1, 1, 1, 2⟩

/-- The post-construction state: `scale = 1`, `sigma = [0]`, `old_energy = 0`,
`MCaccept = 0`, `MCfirst = -1`. -/
noncomputable def seedFs : FullState := ⟨⟨1, [0], 0, 0⟩, -1⟩

/-- The energy of the initial state of `seedCfg` is `log sqrt2pi`. -/
theorem seedCfg_energy : stateEnergy seedCfg [0] [0] 1 = Real.log sqrt2pi := by
  norm_num [stateEnergy, seedCfg, getEnergyGJE, Finset.sum_range_one]

/-- With `seedCfg` and a stream of draws equal to 1, the sampler invoked with
`MCfirst = 1` (not `-1`) does not seed `old_energy`; the identity proposal is
then compared against the stale `old_energy = 0`, `delta = log sqrt2pi > 0`,
the Metropolis draw `1` is not below `exp(-delta) < 1`, and the proposal is
rejected: the state is returned unchanged. -/
theorem seedCfg_doMonteCarlo_unseeded :
    doMonteCarlo seedCfg [0] ⟨1, [0], 0, 0⟩ 1 (fun _ => 1) = ⟨1, [0], 0, 0⟩ := by
  have hg : (0:ℝ) < Real.log sqrt2pi := Real.log_pos (by norm_num [sqrt2pi])
  have hexp : Real.exp (-Real.log sqrt2pi) < 1 := by
    rw [← Real.exp_zero]
    exact Real.exp_lt_exp.mpr (by linarith)
  have hprop : proposeSigmas seedCfg (fun _ => (1:ℝ)) [0] 0 = [0] :=
    proposeSigmas_fixed seedCfg _ 0 0 rfl (by norm_num [seedCfg]) (by norm_num [seedCfg])
  have hd : ¬(Real.log sqrt2pi ≤ 0) := not_le.mpr hg
  have hu : ¬((1:ℝ) < Real.exp (-Real.log sqrt2pi)) := not_lt.mpr hexp.le
  unfold doMonteCarlo
  rw [if_neg (by decide : ¬(1:ℤ) = -1)]
  rw [show seedCfg.MCsteps = 1 from rfl, Function.iterate_one]
  unfold mcInner mcAcceptStep
  simp only [show seedCfg.doscale = false from rfl, Bool.false_eq_true,
    if_false, hprop, seedCfg_energy, show seedCfg.kbt = 1 from rfl]
  norm_num [hd, hu]

/-- Claim C6 (code-bug demonstration): drive `seedCfg` with `calculate` at
step 1 (not a sampler step, records `MCfirst = 1`) and then at step 2 (the
sampler's first invocation).  Because `MCfirst` is no longer `-1`, the
seeding branch of `doMonteCarlo` is skipped: after the run `old_energy` is
still the constructor value 0 and not the current state's energy (which is
nonzero), and the identity proposal was wrongly rejected (`MCaccept = 0`;
a seeded first invocation would have `delta = 0` and accept). -/
theorem calculate_skips_first_seed :
    ((calculate seedCfg [0] 2 false (fun _ => 1)
        ((calculate seedCfg [0] 1 false (fun _ => 1) seedFs).1)).1.mc.old_energy = 0) ∧
    ((calculate seedCfg [0] 2 false (fun _ => 1)
        ((calculate seedCfg [0] 1 false (fun _ => 1) seedFs).1)).1.mc.MCaccept = 0) ∧
    stateEnergy seedCfg [0] [0] 1 ≠ 0 := by
  have hg : (0:ℝ) < Real.log sqrt2pi := Real.log_pos (by norm_num [sqrt2pi])
  have hstep1 : (calculate seedCfg [0] 1 false (fun _ => 1) seedFs).1
      = ⟨⟨1, [0], 0, 0⟩, 1⟩ := by
    simp only [calculate, show seedCfg.MCstride = 2 from rfl,
      show seedFs.MCfirst = -1 from rfl, show seedFs.mc = ⟨1, [0], 0, 0⟩ from rfl]
    norm_num
  have hstep2 : (calculate seedCfg [0] 2 false (fun _ => 1)
      (⟨⟨1, [0], 0, 0⟩, 1⟩ : FullState)).1.mc = ⟨1, [0], 0, 0⟩ := by
    simp only [calculate, show seedCfg.MCstride = 2 from rfl]
    norm_num
    exact seedCfg_doMonteCarlo_unseeded
  refine ⟨?_, ?_, ?_⟩
  · rw [hstep1, hstep2]
  · rw [hstep1, hstep2]
  · rw [seedCfg_energy]
    exact ne_of_gt hg

end Metainference
